import Mathlib

/-!
Shallow embedding of the rust-cpu-emulator core, translated from the
repository sources (`src/cpu.rs`, `src/cpu/instructions.rs`, `src/cpu/size.rs`,
`src/cpu/register_id.rs`, `src/address_bus.rs`, `src/port_bus.rs`,
`src/memory.rs`).

Machine integers are modelled as `Nat` with explicit reductions `% 2^64`
(u64), `% 2^16` (u16) and `% 256` (u8) at the points where the Rust types
impose them.  The CPU's address bus is modelled as a total byte memory
`Nat → Nat` (the default configuration maps one `Memory` device over the
whole region programs use; each read of a byte is reduced `% 256`, which is
the u8 type of the bus traffic).  The `AddressBus` routing fabric itself is
modelled separately, as the list of delivery events a `write` call produces.
-/

/-- Operand widths, from `src/cpu/size.rs` (`enum Size { One = 1, Two = 2, Four = 4, Eight = 8 }`). -/
inductive Size where
  | One
  | Two
  | Four
  | Eight
deriving DecidableEq, Repr

/-- The numeric value of a `Size` (its width in bytes). -/
def Size.toNat : Size → Nat
  | .One => 1
  | .Two => 2
  | .Four => 4
  | .Eight => 8

/-- Register identifiers, from `src/cpu/register_id.rs`; discriminants 1..7,
with 0 reserved for "no register" (represented by `Option RegisterId`). -/
inductive RegisterId where
  | X0
  | X1
  | X2
  | X3
  | X4
  | Sp
  | Ip
deriving DecidableEq, Repr

/-- Flag bit positions, from `src/cpu.rs` (`enum CpuFlag`). -/
inductive CpuFlag where
  | Negative
  | Overflow
  | Zero
  | Carry
  | InterruptEnable
deriving DecidableEq, Repr

/-- The bit index of each flag inside the 64-bit flags word
(`Negative = 0, Overflow = 1, Zero = 2, Carry = 3, InterruptEnable = 4`). -/
def CpuFlag.bit : CpuFlag → Nat
  | .Negative => 0
  | .Overflow => 1
  | .Zero => 2
  | .Carry => 3
  | .InterruptEnable => 4

/-- `Cpu::get_flag`: `(self.flags >> flag as u64 & 1) == 1`.
On `Nat`, shifting right by `bit` and masking with 1 is `/ 2^bit % 2`. -/
def get_flag (flags : Nat) (flag : CpuFlag) : Bool :=
  decide (flags / 2 ^ flag.bit % 2 = 1)

/-- `Cpu::set_flag`: `self.flags &= !(1 << flag); self.flags |= (value as u64) << flag;`.
The AND with the 64-bit complement keeps bits 0..63 of `flags` except `bit`
(written below as high part `+` low part of `flags % 2^64`), and the OR
re-inserts the chosen bit value. -/
def set_flag (flags : Nat) (flag : CpuFlag) (value : Bool) : Nat :=
  let fl := flags % 2 ^ 64
  fl / 2 ^ (flag.bit + 1) * 2 ^ (flag.bit + 1) + (if value then 2 ^ flag.bit else 0) + fl % 2 ^ flag.bit

/-- `trunucate_value` (sic) from `src/cpu/instructions.rs`: the chains of
casts `as u8 as u64`, `as u16 as u64`, `as u32 as u64` are reductions modulo
the width; the `Size::Eight` arm returns the u64 value itself, i.e. the value
modulo `2^64`. -/
def trunucate_value (value : Nat) (size : Size) : Nat :=
  match size with
  | .One => value % 2 ^ 8
  | .Two => value % 2 ^ 16
  | .Four => value % 2 ^ 32
  | .Eight => value % 2 ^ 64

/-- `get_sign_bit`: `(value >> ((size as u64) * 8 - 1) & 1) > 0`. -/
def get_sign_bit (value : Nat) (size : Size) : Bool :=
  decide (value / 2 ^ (size.toNat * 8 - 1) % 2 = 1)

/-- The signed (two's-complement) reading of the low `size` bytes of a value:
this is what the Rust casts `as i8 / as i16 / as i32 / as i64` produce. -/
def to_signed (value : Nat) (size : Size) : Int :=
  let w := 8 * size.toNat
  let t := value % 2 ^ w
  if t < 2 ^ (w - 1) then (t : Int) else (t : Int) - (2 ^ w : Nat)

/-- `does_signed_add_overflow`: `(lhs as iN).checked_add(rhs as iN).is_none()`
— true exactly when the signed sum of the truncated operands leaves the
representable range of the width. -/
def does_signed_add_overflow (lhs rhs : Nat) (size : Size) : Bool :=
  let w := 8 * size.toNat
  let s := to_signed lhs size + to_signed rhs size
  decide (s < -(2 ^ (w - 1) : Nat) ∨ (2 ^ (w - 1) : Nat) ≤ s)

/-- `does_signed_sub_overflow`: `(lhs as iN).checked_sub(rhs as iN).is_none()`. -/
def does_signed_sub_overflow (lhs rhs : Nat) (size : Size) : Bool :=
  let w := 8 * size.toNat
  let s := to_signed lhs size - to_signed rhs size
  decide (s < -(2 ^ (w - 1) : Nat) ∨ (2 ^ (w - 1) : Nat) ≤ s)

/-- `does_unsigned_div_overflow`: `(lhs as uN).checked_div(rhs as uN).is_none()`
— unsigned `checked_div` is `None` exactly when the (truncated) divisor is 0. -/
def does_unsigned_div_overflow (lhs rhs : Nat) (size : Size) : Bool :=
  decide (trunucate_value rhs size = 0)

/-- u64 `wrapping_add`. -/
def wrapping_add (a b : Nat) : Nat := (a + b) % 2 ^ 64

/-- u64 `wrapping_sub`: on u64 values `a - b` wraps to `a + (2^64 - b) (mod 2^64)`. -/
def wrapping_sub (a b : Nat) : Nat := (a + (2 ^ 64 - b % 2 ^ 64)) % 2 ^ 64

/-- Pointwise store of one byte into the modelled address space. -/
def mem_update (mem : Nat → Nat) (address v : Nat) : Nat → Nat :=
  fun x => if x = address then v else mem x

/-- A bus write of a byte slice at consecutive addresses (the fully-mapped
`Memory` device behaviour: `AddressBus::write` followed by `Memory::write`). -/
def write_bytes : (Nat → Nat) → Nat → List Nat → (Nat → Nat)
  | mem, _, [] => mem
  | mem, address, b :: bs => write_bytes (mem_update mem address b) (address + 1) bs

/-- A bus read of `n` consecutive bytes combined little-endian
(`uN::from_le_bytes`); each byte of bus traffic is a u8, hence the `% 256`. -/
def read_bytes_le : (Nat → Nat) → Nat → Nat → Nat
  | _, _, 0 => 0
  | mem, address, n + 1 => mem address % 256 + 256 * read_bytes_le mem (address + 1) n

/-- `uN::to_le_bytes`: the `n` little-endian bytes of a value. -/
def to_le_bytes (value : Nat) : Nat → List Nat
  | 0 => []
  | n + 1 => value % 256 :: to_le_bytes (value / 256) n

theorem to_le_bytes_length (value n : Nat) : (to_le_bytes value n).length = n := by
  induction n generalizing value with
  | zero => rfl
  | succ n ih => simp [to_le_bytes, ih]

theorem read_bytes_le_lt (mem : Nat → Nat) (address n : Nat) :
    read_bytes_le mem address n < 256 ^ n := by
  induction n generalizing address with
  | zero => simp [read_bytes_le]
  | succ n ih =>
    have h1 : mem address % 256 < 256 := Nat.mod_lt _ (by norm_num)
    have h2 := ih (address + 1)
    simp only [read_bytes_le, pow_succ]
    omega

theorem write_bytes_apply_out (bs : List Nat) (mem : Nat → Nat) (address x : Nat)
    (h : x < address ∨ address + bs.length ≤ x) :
    write_bytes mem address bs x = mem x := by
  induction bs generalizing mem address with
  | nil => rfl
  | cons b bs ih =>
    simp only [write_bytes]
    rw [ih]
    · simp only [mem_update]
      rw [if_neg]
      simp only [List.length_cons] at h
      omega
    · simp only [List.length_cons] at h
      omega

theorem read_bytes_le_congr (m1 m2 : Nat → Nat) (address n : Nat)
    (h : ∀ i, i < n → m1 (address + i) = m2 (address + i)) :
    read_bytes_le m1 address n = read_bytes_le m2 address n := by
  induction n generalizing address with
  | zero => rfl
  | succ n ih =>
    simp only [read_bytes_le]
    rw [ih]
    · have := h 0 (by omega)
      simp at this
      rw [this]
    · intro i hi
      have := h (i + 1) (by omega)
      rw [show address + 1 + i = address + (i + 1) by omega]
      exact this

theorem read_bytes_le_write_bytes_disjoint (bs : List Nat) (mem : Nat → Nat)
    (a b n : Nat) (h : b + n ≤ a ∨ a + bs.length ≤ b) :
    read_bytes_le (write_bytes mem a bs) b n = read_bytes_le mem b n := by
  apply read_bytes_le_congr
  intro i hi
  apply write_bytes_apply_out
  omega

theorem read_bytes_le_write_bytes_le (mem : Nat → Nat) (a v n : Nat) :
    read_bytes_le (write_bytes mem a (to_le_bytes v n)) a n = v % 256 ^ n := by
  induction n generalizing mem a v with
  | zero => simp [read_bytes_le, to_le_bytes, Nat.mod_one]
  | succ n ih =>
    simp only [to_le_bytes, write_bytes, read_bytes_le]
    rw [write_bytes_apply_out _ _ _ _ (by left; omega)]
    rw [ih]
    simp only [mem_update, eq_self_iff_true, if_true]
    have h1 : v % (256 * 256 ^ n) % 256 = v % 256 :=
      Nat.mod_mod_of_dvd v (dvd_mul_right 256 (256 ^ n))
    have h2 : v % (256 * 256 ^ n) / 256 = v / 256 % 256 ^ n :=
      Nat.mod_mul_right_div_self v 256 (256 ^ n)
    have h3 : 256 ^ (n + 1) = 256 * 256 ^ n := by rw [pow_succ, mul_comm]
    rw [h3]
    omega

/-- The CPU state, from `struct Cpu` in `src/cpu.rs`.  The shared
`address_bus` is modelled by the byte memory `mem` (a fully mapped `Memory`
device, as in the emulator's default configuration); the port bus is modelled
separately. -/
structure Cpu where
  registers : RegisterId → Nat
  idt : Nat
  flags : Nat
  halted : Bool
  mem : Nat → Nat

/-- `Cpu::register_assign` — registers hold u64 values. -/
def register_assign (regs : RegisterId → Nat) (id : RegisterId) (value : Nat) :
    RegisterId → Nat :=
  fun r => if r = id then value % 2 ^ 64 else regs r

/-- `Cpu::register_assign_sized`: each arm keeps the high bytes of the
register (the AND with `0xffff..00` masks, written arithmetically on the u64
value) and inserts the low bytes of `value` (the OR with `value & mask`). -/
def register_assign_sized (regs : RegisterId → Nat) (id : RegisterId) (value : Nat)
    (size : Size) : RegisterId → Nat :=
  fun r =>
    if r = id then
      match size with
      | .One => regs id % 2 ^ 64 / 2 ^ 8 * 2 ^ 8 + value % 2 ^ 8
      | .Two => regs id % 2 ^ 64 / 2 ^ 16 * 2 ^ 16 + value % 2 ^ 16
      | .Four => regs id % 2 ^ 64 / 2 ^ 32 * 2 ^ 32 + value % 2 ^ 32
      | .Eight => value % 2 ^ 64
    else regs r

/-- `Cpu::register_add_assign`: `register_value.wrapping_add(value)`. -/
def register_add_assign (regs : RegisterId → Nat) (id : RegisterId) (value : Nat) :
    RegisterId → Nat :=
  register_assign regs id (wrapping_add (regs id) value)

/-- `Cpu::register_sub_assign`: `register_value.wrapping_sub(value)`. -/
def register_sub_assign (regs : RegisterId → Nat) (id : RegisterId) (value : Nat) :
    RegisterId → Nat :=
  register_assign regs id (wrapping_sub (regs id) value)

/-- `Cpu::fetch_byte`: read one byte at `IP` through the bus, then advance
`IP` by 1; returns the byte and the new state. -/
def fetch_byte (m : Cpu) : Nat × Cpu :=
  (m.mem (m.registers .Ip) % 256,
   { m with registers := register_add_assign m.registers .Ip 1 })

/-- `Cpu::push_qword`: decrement `SP` by 8 (wrapping), then write the 8
little-endian bytes of the value at the new `SP`. -/
def push_qword (m : Cpu) (value : Nat) : Cpu :=
  let regs := register_sub_assign m.registers .Sp 8
  { m with
    registers := regs
    mem := write_bytes m.mem (regs .Sp) (to_le_bytes value 8) }

/-- `Cpu::push_flags`: pushes the full 64-bit flags word. -/
def push_flags (m : Cpu) : Cpu :=
  push_qword m m.flags

/-- `Cpu::reset` (`src/cpu.rs`, lines 64-79): reads the 8 little-endian bytes
at address 0, sets `InterruptEnable`, assigns `IP` to the value read and
`SP = 0xffff`.  Note the function does not touch the `halted` field. -/
def reset (m : Cpu) : Cpu :=
  let execution_start := read_bytes_le m.mem 0 8
  let m1 := { m with flags := set_flag m.flags .InterruptEnable true }
  let m2 := { m1 with registers := register_assign m1.registers .Ip execution_start }
  { m2 with registers := register_assign m2.registers .Sp 0xffff }

/-- `Cpu::clock` (`src/cpu.rs`, lines 57-62): when halted, do nothing;
otherwise fetch the opcode byte at `IP` and dispatch it.  The dispatch table
(`instruction_lookup.rs`, not among the provided sources) is abstracted as
the parameter `execute_opcode`. -/
def clock (execute_opcode : Nat → Cpu → Cpu) (m : Cpu) : Cpu :=
  if m.halted then m
  else
    let fetched := fetch_byte m
    execute_opcode fetched.1 fetched.2

/-- `Cpu::interrupt_handler` (`src/cpu.rs`, lines 335-359): with no IDT the
CPU resets; with a zero handler entry the CPU resets; otherwise it pushes the
flags word, pushes `IP`, and assigns `IP` the handler address read from the
IDT slot.  `self.idt + idt_entry * 8` is a u64 addition. -/
def interrupt_handler (m : Cpu) (idt_entry : Nat) : Cpu :=
  if m.idt ≠ 0 then
    let idt_entry_address := (m.idt + idt_entry * 8) % 2 ^ 64
    let handler_address := read_bytes_le m.mem idt_entry_address 8
    if handler_address ≠ 0 then
      let m1 := push_flags m
      let m2 := push_qword m1 (m1.registers .Ip)
      { m2 with registers := register_assign m2.registers .Ip handler_address }
    else reset m
  else reset m

/-- `Cpu::interrupt_request`: honoured only when `InterruptEnable` is set. -/
def interrupt_request (m : Cpu) (idt_entry : Nat) : Cpu :=
  if get_flag m.flags .InterruptEnable then interrupt_handler m idt_entry else m

/-- `Cpu::non_maskable_interrupt_request`: dispatches unconditionally. -/
def non_maskable_interrupt_request (m : Cpu) (idt_entry : Nat) : Cpu :=
  interrupt_handler m idt_entry

/-- The error half of `Cpu::execute_opcode` (`src/cpu.rs`, lines 295-313): an
instruction returns `Result<(), u8>`; on `Err(idt_entry)` the CPU delivers the
vector as a non-maskable interrupt, on `Ok` execution simply continues. -/
def deliver_result (p : Cpu × Option Nat) : Cpu :=
  match p.2 with
  | some idt_entry => non_maskable_interrupt_request p.1 idt_entry
  | none => p.1

/-- Modelled from the spec: `reserved_idt_entries.rs` is not among the
provided sources; scenario S4 of the spec identifies IDT slot 0 as the
`DIVIDE_BY_ZERO` vector. -/
def DIVIDE_BY_ZERO : Nat := 0

theorem get_flag_set_flag (flags : Nat) (f g : CpuFlag) (value : Bool) :
    get_flag (set_flag flags f value) g = if f = g then value else get_flag flags g := by
  cases f <;> cases g <;> cases value <;>
    simp [get_flag, set_flag, CpuFlag.bit, decide_eq_decide, decide_eq_true_eq] <;>
    omega

theorem register_assign_sized_mod (regs : RegisterId → Nat) (id : RegisterId)
    (value : Nat) (size : Size) :
    register_assign_sized regs id value size id % 2 ^ (8 * size.toNat) =
      value % 2 ^ (8 * size.toNat) := by
  cases size <;> simp [register_assign_sized, Size.toNat] <;> omega

theorem register_assign_sized_high (regs : RegisterId → Nat) (id : RegisterId)
    (value : Nat) (size : Size) :
    register_assign_sized regs id value size id / 2 ^ (8 * size.toNat) =
      regs id % 2 ^ 64 / 2 ^ (8 * size.toNat) := by
  cases size <;> simp [register_assign_sized, Size.toNat] <;> omega

theorem register_assign_sized_other (regs : RegisterId → Nat) (id r : RegisterId)
    (value : Nat) (size : Size) (h : r ≠ id) :
    register_assign_sized regs id value size r = regs r := by
  simp [register_assign_sized, h]

/-- `Cpu::ADD` (`src/cpu/instructions.rs`, lines 157-205) after operand
decode: `dst_id` is the decoded destination register, `rhs_value` the decoded
right operand (register value, or the zero-extended fetched immediate), and
`size` the decoded width.  Flags are written in source order (Zero, Negative,
Carry, Overflow), each computed from the old register value, then the result
is sized-assigned. -/
def ADD_body (m : Cpu) (dst_id : RegisterId) (rhs_value : Nat) (size : Size) : Cpu :=
  let result := wrapping_add (m.registers dst_id) rhs_value
  let f1 := set_flag m.flags .Zero (decide (trunucate_value result size = 0))
  let f2 := set_flag f1 .Negative (get_sign_bit result size)
  let f3 := set_flag f2 .Carry
    (decide (trunucate_value (m.registers dst_id) size > trunucate_value result size))
  let f4 := set_flag f3 .Overflow (does_signed_add_overflow (m.registers dst_id) rhs_value size)
  { m with
    flags := f4
    registers := register_assign_sized m.registers dst_id result size }

/-- `Cpu::SUB` (lines 207-249) after operand decode.  Note: unlike ADD, the
Zero flag is computed from the full 64-bit difference (`result == 0`), not
from the truncated result. -/
def SUB_body (m : Cpu) (dst_id : RegisterId) (rhs_value : Nat) (size : Size) : Cpu :=
  let result := wrapping_sub (m.registers dst_id) rhs_value
  let f1 := set_flag m.flags .Zero (decide (result = 0))
  let f2 := set_flag f1 .Negative (get_sign_bit result size)
  let f3 := set_flag f2 .Carry
    (decide (trunucate_value (m.registers dst_id) size < trunucate_value result size))
  let f4 := set_flag f3 .Overflow (does_signed_sub_overflow (m.registers dst_id) rhs_value size)
  { m with
    flags := f4
    registers := register_assign_sized m.registers dst_id result size }

/-- `Cpu::CMP` (lines 485-524) after operand decode: flags as SUB, without
the write-back. -/
def CMP_body (m : Cpu) (dst_id : RegisterId) (rhs_value : Nat) (size : Size) : Cpu :=
  let result := wrapping_sub (m.registers dst_id) rhs_value
  let f1 := set_flag m.flags .Zero (decide (result = 0))
  let f2 := set_flag f1 .Negative (get_sign_bit result size)
  let f3 := set_flag f2 .Carry
    (decide (trunucate_value (m.registers dst_id) size < trunucate_value result size))
  let f4 := set_flag f3 .Overflow (does_signed_sub_overflow (m.registers dst_id) rhs_value size)
  { m with flags := f4 }

/-- `Cpu::DIV` (lines 294-335) after operand decode.  A zero `rhs_value`
returns `Err(DIVIDE_BY_ZERO)` before any state change; otherwise
`wrapping_div` on u64 is plain division, the Zero flag is assigned twice in
the source (the second assignment stores the sign bit), and Carry comes from
`does_unsigned_div_overflow`. -/
def DIV_body (m : Cpu) (dst_id : RegisterId) (rhs_value : Nat) (size : Size) :
    Cpu × Option Nat :=
  if rhs_value = 0 then (m, some DIVIDE_BY_ZERO)
  else
    let result := m.registers dst_id / rhs_value
    let f1 := set_flag m.flags .Zero (decide (result = 0))
    let f2 := set_flag f1 .Zero (get_sign_bit result size)
    let f3 := set_flag f2 .Carry (does_unsigned_div_overflow (m.registers dst_id) rhs_value size)
    ({ m with
       flags := f3
       registers := register_assign_sized m.registers dst_id result size }, none)

/-- `Cpu::OR` (lines 337-369) after operand decode.  The source assigns the
Zero flag twice (the second assignment stores the sign bit) and never assigns
Negative. -/
def OR_body (m : Cpu) (dst_id : RegisterId) (rhs_value : Nat) (size : Size) : Cpu :=
  let result := m.registers dst_id ||| rhs_value
  let f1 := set_flag m.flags .Zero (decide (result = 0))
  let f2 := set_flag f1 .Zero (get_sign_bit result size)
  { m with
    flags := f2
    registers := register_assign_sized m.registers dst_id result size }

/-- `Cpu::XOR` (lines 371-403) after operand decode; same double Zero
assignment as OR. -/
def XOR_body (m : Cpu) (dst_id : RegisterId) (rhs_value : Nat) (size : Size) : Cpu :=
  let result := m.registers dst_id ^^^ rhs_value
  let f1 := set_flag m.flags .Zero (decide (result = 0))
  let f2 := set_flag f1 .Zero (get_sign_bit result size)
  { m with
    flags := f2
    registers := register_assign_sized m.registers dst_id result size }

/-- `Cpu::AND` (lines 405-437) after operand decode; same double Zero
assignment as OR. -/
def AND_body (m : Cpu) (dst_id : RegisterId) (rhs_value : Nat) (size : Size) : Cpu :=
  let result := m.registers dst_id &&& rhs_value
  let f1 := set_flag m.flags .Zero (decide (result = 0))
  let f2 := set_flag f1 .Zero (get_sign_bit result size)
  { m with
    flags := f2
    registers := register_assign_sized m.registers dst_id result size }

/-- `Cpu::NOT` (lines 439-460) after operand decode: `!x` on a u64 is
`0xffffffffffffffff - x`; Zero from the full 64-bit result, Negative from the
width's sign bit. -/
def NOT_body (m : Cpu) (dst_id : RegisterId) (size : Size) : Cpu :=
  let result := 2 ^ 64 - 1 - m.registers dst_id % 2 ^ 64
  let f1 := set_flag m.flags .Zero (decide (result = 0))
  let f2 := set_flag f1 .Negative (get_sign_bit result size)
  { m with
    flags := f2
    registers := register_assign_sized m.registers dst_id result size }

/-- `Cpu::NEG` (lines 462-483) after operand decode: u64 `wrapping_neg`. -/
def NEG_body (m : Cpu) (dst_id : RegisterId) (size : Size) : Cpu :=
  let result := (2 ^ 64 - m.registers dst_id % 2 ^ 64) % 2 ^ 64
  let f1 := set_flag m.flags .Zero (decide (result = 0))
  let f2 := set_flag f1 .Negative (get_sign_bit result size)
  { m with
    flags := f2
    registers := register_assign_sized m.registers dst_id result size }

/-- `Cpu::STR` (lines 569-585) after operand decode: writes
`self.register(src_id).to_le_bytes()` — all 8 bytes of the source register —
to the effective address.  The decoded `size` is parsed but never used by the
source. -/
def STR_body (m : Cpu) (src_id : RegisterId) (size : Size) (address : Nat) : Cpu :=
  { m with mem := write_bytes m.mem address (to_le_bytes (m.registers src_id) 8) }

/-- The port-bus slot table, from `src/port_bus.rs`: a fixed array of
`0xffff` (65535) optional devices, indexed directly by the port number.  A
port device is modelled by the u64 value its `read()` returns. -/
abbrev PortBusEntries : Type := Fin 0xffff → Option Nat

/-- `PortBus::read` (`src/port_bus.rs`, lines 40-46): a mapped port returns
the device's value, an unmapped slot returns `0xffffffffffffffff`.  The
access `self.entries[port as usize]` indexes the 65535-element array, so a
port value of `0xffff` is out of bounds — the Rust code panics, modelled as
`none`. -/
def port_bus_read (entries : PortBusEntries) (port : Nat) : Option Nat :=
  if h : port < 0xffff then
    match entries ⟨port, h⟩ with
    | some value => some value
    | none => some 0xffffffffffffffff
  else none

/-- `Cpu::IN` (lines 831-846) after decoding the destination register and
the 16-bit port: assigns `port_bus.read(port)` to the full destination
register.  A panic inside the port-bus read propagates. -/
def IN_body (entries : PortBusEntries) (m : Cpu) (dst_id : RegisterId) (port : Nat) :
    Option Cpu :=
  (port_bus_read entries port).map fun value =>
    { m with registers := register_assign m.registers dst_id value }

/-- An interval entry of the address bus (`src/address_bus.rs`):
`entries.insert(address..address + length, device)` — a half-open interval
`[start, stop)` owning one device, identified here by its interval. -/
structure BusEntry where
  start : Nat
  stop : Nat
deriving DecidableEq, Repr

/-- One delivery performed by `AddressBus::write`: the call
`device.write(bytes, address, offset)` made to the device owning
`[start, stop)`. -/
structure BusCall where
  start : Nat
  stop : Nat
  bytes : List Nat
  address : Nat
  offset : Nat
deriving DecidableEq, Repr

/-- `AddressBus::write` (`src/address_bus.rs`, lines 33-47) as the list of
device calls it performs: the interval-map query `iter_mut(address..address +
src.len())` visits exactly the entries whose interval meets the query range
(those with `max(start, address) < min(stop, address + len)`), and each
receives the sub-slice `src[start_address - address ..][.. end_address -
start_address]` with the original `address` and `offset = start_address -
entry.start`. -/
def address_bus_write (entries : List BusEntry) (src : List Nat) (address : Nat) :
    List BusCall :=
  entries.filterMap fun entry =>
    let start_address := max entry.start address
    let end_address := min entry.stop (address + src.length)
    if start_address < end_address then
      some
        { start := entry.start
          stop := entry.stop
          bytes := (src.drop (start_address - address)).take (end_address - start_address)
          address := address
          offset := start_address - entry.start }
    else none

/-- The spec's description of the overlap test: the device interval
`[start, stop)` intersects the written range `[address, address + n)`. -/
def bus_overlaps (entry : BusEntry) (address n : Nat) : Bool :=
  decide (max entry.start address < min entry.stop (address + n))

/-- The spec's description of the one delivery an intersecting device
receives: the clipped sub-slice of `src` covering the intersection, at
`offset = clipped_start - device.start`. -/
def clipped_call (entry : BusEntry) (src : List Nat) (address : Nat) : BusCall :=
  { start := entry.start
    stop := entry.stop
    bytes := (src.drop (max entry.start address - address)).take
      (min entry.stop (address + src.length) - max entry.start address)
    address := address
    offset := max entry.start address - entry.start }

theorem get_sign_bit_iff_msb (v : Nat) (size : Size) :
    get_sign_bit v size = true ↔
      trunucate_value v size / 2 ^ (8 * size.toNat - 1) = 1 := by
  cases size <;>
    simp only [get_sign_bit, trunucate_value, Size.toNat, decide_eq_true_eq] <;>
    norm_num <;> omega

/-- The concrete machine of spec scenario S2: `X0 = 0xFF`, flags clear. -/
def s2_machine : Cpu :=
  { registers := fun r => if r = .X0 then 0xff else 0
    idt := 0
    flags := 0
    halted := false
    mem := fun _ => 0 }

/-- C6: after ADD at any width, Zero holds iff the truncated result is 0,
Negative is the MSB of the truncated result, Carry holds iff the truncated
result is below the truncated left operand, Overflow holds iff the signed
two's-complement sum at the width leaves the representable range, and the
destination's low bytes receive the wrapped sum; in particular the S2
scenario (`X0 = 0xFF`, 8-bit `ADD X0, 1`) yields low byte 0, Zero=1,
Carry=1, Overflow=0, Negative=0. -/
theorem add_flags_spec :
    (∀ (m : Cpu) (dst_id : RegisterId) (rhs_value : Nat) (size : Size),
      (get_flag (ADD_body m dst_id rhs_value size).flags .Zero = true ↔
        trunucate_value (wrapping_add (m.registers dst_id) rhs_value) size = 0) ∧
      (get_flag (ADD_body m dst_id rhs_value size).flags .Negative = true ↔
        trunucate_value (wrapping_add (m.registers dst_id) rhs_value) size /
          2 ^ (8 * size.toNat - 1) = 1) ∧
      (get_flag (ADD_body m dst_id rhs_value size).flags .Carry = true ↔
        trunucate_value (wrapping_add (m.registers dst_id) rhs_value) size <
          trunucate_value (m.registers dst_id) size) ∧
      (get_flag (ADD_body m dst_id rhs_value size).flags .Overflow = true ↔
        (to_signed (m.registers dst_id) size + to_signed rhs_value size <
            -(2 ^ (8 * size.toNat - 1) : Nat) ∨
          ((2 ^ (8 * size.toNat - 1) : Nat) : Int) ≤
            to_signed (m.registers dst_id) size + to_signed rhs_value size)) ∧
      (ADD_body m dst_id rhs_value size).registers dst_id % 2 ^ (8 * size.toNat) =
        wrapping_add (m.registers dst_id) rhs_value % 2 ^ (8 * size.toNat)) ∧
    ((ADD_body s2_machine .X0 1 .One).registers .X0 % 2 ^ 8 = 0 ∧
      get_flag (ADD_body s2_machine .X0 1 .One).flags .Zero = true ∧
      get_flag (ADD_body s2_machine .X0 1 .One).flags .Carry = true ∧
      get_flag (ADD_body s2_machine .X0 1 .One).flags .Overflow = false ∧
      get_flag (ADD_body s2_machine .X0 1 .One).flags .Negative = false) := by
  constructor
  · intro m dst_id rhs_value size
    refine ⟨?_, ?_, ?_, ?_, ?_⟩
    · simp [ADD_body, get_flag_set_flag]
    · simp only [ADD_body, get_flag_set_flag]
      simp [get_sign_bit_iff_msb]
    · simp [ADD_body, get_flag_set_flag, gt_iff_lt]
    · simp [ADD_body, get_flag_set_flag, does_signed_add_overflow]
    · simp only [ADD_body]
      exact register_assign_sized_mod ..
  · refine ⟨?_, ?_, ?_, ?_, ?_⟩ <;> decide

/-- A halted CPU with zeroed registers, flags and memory. -/
def halted_machine : Cpu :=
  { registers := fun _ => 0
    idt := 0
    flags := 0
    halted := true
    mem := fun _ => 0 }

/-- C2 counterexample: `reset()` does not clear the halted flag — resetting a
halted CPU leaves it halted, contradicting the claim that the resulting state
has `halted = false`. -/
theorem reset_keeps_halted_cex : ¬ (reset halted_machine).halted = false := by
  simp [reset, halted_machine]

/-- C2 as amended: `reset()` sets `InterruptEnable`, loads `IP` from the 8
little-endian bytes at address 0, sets `SP = 0xFFFF`, and leaves `X0`-`X4`
unchanged — but it leaves the halted flag unchanged, so a halted CPU stays
halted and `clock()` remains a no-op after `reset()`. -/
theorem reset_spec_amended (m : Cpu) :
    (reset m).halted = m.halted ∧
    get_flag (reset m).flags .InterruptEnable = true ∧
    (reset m).registers .Ip = read_bytes_le m.mem 0 8 ∧
    (reset m).registers .Sp = 0xffff ∧
    (reset m).registers .X0 = m.registers .X0 ∧
    (reset m).registers .X1 = m.registers .X1 ∧
    (reset m).registers .X2 = m.registers .X2 ∧
    (reset m).registers .X3 = m.registers .X3 ∧
    (reset m).registers .X4 = m.registers .X4 ∧
    (m.halted = true →
      ∀ execute_opcode, clock execute_opcode (reset m) = reset m) := by
  have hip : read_bytes_le m.mem 0 8 < 2 ^ 64 := by
    have := read_bytes_le_lt m.mem 0 8
    norm_num at this ⊢
    omega
  refine ⟨rfl, ?_, ?_, ?_, ?_, ?_, ?_, ?_, ?_, ?_⟩
  · simp [reset, get_flag_set_flag]
  · simp [reset, register_assign]
    omega
  · simp [reset, register_assign]
  · simp [reset, register_assign]
  · simp [reset, register_assign]
  · simp [reset, register_assign]
  · simp [reset, register_assign]
  · simp [reset, register_assign]
  · intro hh execute_opcode
    have : (reset m).halted = true := by simpa [reset] using hh
    simp [clock, this]

/-- Witness for `reset_spec_amended` at the concrete halted machine. -/
theorem reset_spec_amended_witness :
    (reset halted_machine).registers .Sp = 0xffff ∧
    clock (fun _ m => m) (reset halted_machine) = reset halted_machine := by
  refine ⟨(reset_spec_amended halted_machine).2.2.2.1, ?_⟩
  exact (reset_spec_amended halted_machine).2.2.2.2.2.2.2.2.2 rfl _

/-- A machine whose `X0` holds `0x100`: its low byte is 0 while the full
64-bit value is not. -/
def x0_100_machine : Cpu :=
  { registers := fun r => if r = .X0 then 0x100 else 0
    idt := 0
    flags := 0
    halted := false
    mem := fun _ => 0 }

/-- C3 counterexample: executing `SUB X0, 0` at width 1 with `X0 = 0x100`
gives a difference whose truncation to 1 byte is 0, yet the Zero flag comes
out clear — the source computes Zero from the full 64-bit difference, so the
claimed ADD-style Zero semantics fails for values of the destination's bytes
above the operand width. -/
theorem sub_zero_truncated_cex :
    trunucate_value (wrapping_sub (x0_100_machine.registers .X0) 0) .One = 0 ∧
    get_flag (SUB_body x0_100_machine .X0 0 .One).flags .Zero = false := by
  constructor <;> decide

/-- C3 as amended: for SUB and CMP the Zero flag is set iff the full 64-bit
wrapping difference is 0 (not the difference truncated to the operand width,
as for ADD). -/
theorem sub_cmp_zero_fullwidth (m : Cpu) (dst_id : RegisterId) (rhs_value : Nat)
    (size : Size) :
    (get_flag (SUB_body m dst_id rhs_value size).flags .Zero = true ↔
      wrapping_sub (m.registers dst_id) rhs_value = 0) ∧
    (get_flag (CMP_body m dst_id rhs_value size).flags .Zero = true ↔
      wrapping_sub (m.registers dst_id) rhs_value = 0) := by
  constructor <;> simp [SUB_body, CMP_body, get_flag_set_flag]

/-- C4 counterexample: with `X0 = 0x100` the divisor register also holding
`0x100` truncates to 0 at width 1, so the claim demands a DIVIDE_BY_ZERO
fault — but the source tests and divides the full 64-bit values, returning no
fault and writing quotient 1 into the low byte of `X0`. -/
theorem div_truncated_divisor_cex :
    trunucate_value 0x100 .One = 0 ∧
    (DIV_body x0_100_machine .X0 0x100 .One).2 = none ∧
    (DIV_body x0_100_machine .X0 0x100 .One).1.registers .X0 % 2 ^ 8 = 1 := by
  refine ⟨?_, ?_, ?_⟩ <;> decide

/-- C4 as amended: DIV operates on the full 64-bit operand values, not on
unsigned lanes of the chosen width — the DIVIDE_BY_ZERO fault is raised
exactly when the full 64-bit divisor is 0, and otherwise the low `size` bytes
of the destination receive the low bytes of the full 64-bit quotient, so
operand bytes above the width do affect the outcome. -/
theorem div_fullwidth_semantics (m : Cpu) (dst_id : RegisterId) (rhs_value : Nat)
    (size : Size) :
    (rhs_value = 0 → DIV_body m dst_id rhs_value size = (m, some DIVIDE_BY_ZERO)) ∧
    (rhs_value ≠ 0 →
      (DIV_body m dst_id rhs_value size).2 = none ∧
      (DIV_body m dst_id rhs_value size).1.registers dst_id % 2 ^ (8 * size.toNat) =
        m.registers dst_id / rhs_value % 2 ^ (8 * size.toNat)) := by
  constructor
  · intro h
    simp [DIV_body, h]
  · intro h
    refine ⟨by simp [DIV_body, h], ?_⟩
    simp only [DIV_body, if_neg h]
    exact register_assign_sized_mod ..

/-- Witness for `div_fullwidth_semantics`: both branches at concrete inputs. -/
theorem div_fullwidth_semantics_witness :
    DIV_body x0_100_machine .X0 0 .One = (x0_100_machine, some DIVIDE_BY_ZERO) ∧
    (DIV_body x0_100_machine .X0 2 .One).2 = none := by
  exact ⟨(div_fullwidth_semantics x0_100_machine .X0 0 .One).1 rfl,
    ((div_fullwidth_semantics x0_100_machine .X0 2 .One).2 (by decide)).1⟩

/-- A machine whose `X0` holds `2^63` (sign bit set), flags clear. -/
def x0_msb_machine : Cpu :=
  { registers := fun r => if r = .X0 then 0x8000000000000000 else 0
    idt := 0
    flags := 0
    halted := false
    mem := fun _ => 0 }

/-- A machine whose `X0` holds 1 and whose Negative flag is set. -/
def x0_one_neg_machine : Cpu :=
  { registers := fun r => if r = .X0 then 1 else 0
    idt := 0
    flags := 1
    halted := false
    mem := fun _ => 0 }

/-- C1, evaluated at the failing inputs: executing `OR X0, 0` at width 8 with
`X0 = 2^63` leaves the Zero flag set although the (truncated) result
`2^63` is nonzero — the source's second assignment to Zero stores the sign
bit; and with `X0 = 1` and the Negative flag previously set, the same
instruction leaves Negative set although the result's most significant bit is
0 — the source never assigns Negative for OR/XOR/AND. -/
theorem logical_flags_conflated_bug :
    (get_flag (OR_body x0_msb_machine .X0 0 .Eight).flags .Zero = true ∧
      trunucate_value (x0_msb_machine.registers .X0 ||| 0) .Eight ≠ 0) ∧
    (get_flag (OR_body x0_one_neg_machine .X0 0 .Eight).flags .Negative = true ∧
      trunucate_value (x0_one_neg_machine.registers .X0 ||| 0) .Eight /
        2 ^ (8 * Size.Eight.toNat - 1) = 0) := by
  refine ⟨⟨?_, ?_⟩, ?_, ?_⟩ <;> decide

/-- A machine whose `X0` holds `0x0102030405060708`, with zeroed memory. -/
def str_machine : Cpu :=
  { registers := fun r => if r = .X0 then 0x0102030405060708 else 0
    idt := 0
    flags := 0
    halted := false
    mem := fun _ => 0 }

/-- C5, evaluated at the failing input: `STR X0 -> [0x100]` with operand
width 1 writes the full 8 register bytes — the byte at `EA + 1` changes from
0 to `0x07` (the register's second byte), although the claim says nothing at
or beyond `EA + w` is written. -/
theorem str_ignores_size_bug :
    (STR_body str_machine .X0 .One 0x100).mem 0x101 = 0x07 ∧
    str_machine.mem 0x101 = 0 := by
  constructor <;> decide


theorem push_qword_fields (m : Cpu) (v : Nat) (hsp_lo : 8 ≤ m.registers .Sp)
    (hsp_hi : m.registers .Sp < 2 ^ 64) :
    (push_qword m v).registers .Sp = m.registers .Sp - 8 ∧
    (∀ r, r ≠ RegisterId.Sp → (push_qword m v).registers r = m.registers r) ∧
    (push_qword m v).flags = m.flags ∧
    (push_qword m v).idt = m.idt ∧
    (push_qword m v).halted = m.halted ∧
    (push_qword m v).mem = write_bytes m.mem (m.registers .Sp - 8) (to_le_bytes v 8) := by
  refine ⟨?_, ?_, rfl, rfl, rfl, ?_⟩
  · simp [push_qword, register_sub_assign, register_assign, wrapping_sub]
    omega
  · intro r hr
    simp [push_qword, register_sub_assign, register_assign, hr]
  · have h : register_sub_assign m.registers .Sp 8 .Sp = m.registers .Sp - 8 := by
      simp [register_sub_assign, register_assign, wrapping_sub]
      omega
    show write_bytes m.mem (register_sub_assign m.registers .Sp 8 .Sp) (to_le_bytes v 8) =
      write_bytes m.mem (m.registers .Sp - 8) (to_le_bytes v 8)
    rw [h]

/-- C7: interrupt delivery for a vector first consults the IDT — a zero
`idt` base or a zero handler slot causes a full `reset()`; otherwise the CPU
pushes the 64-bit flags word, then pushes `IP`, then assigns `IP` the handler
address, in exactly that order: afterwards `SP` has dropped by 16, the flags
word sits in the 8 bytes at `SP+8` (pushed first, higher on the
downward-growing stack) and the old `IP` in the 8 bytes at `SP` (pushed
second), and `IP` holds the address read from `idt + 8·vector`. -/
theorem interrupt_dispatch_order (m : Cpu) (vector : Nat)
    (hsp_lo : 16 ≤ m.registers .Sp) (hsp_hi : m.registers .Sp < 2 ^ 64)
    (hflags : m.flags < 2 ^ 64) (hidt : m.idt + vector * 8 < 2 ^ 64) :
    ((m.idt = 0 ∨ read_bytes_le m.mem (m.idt + vector * 8) 8 = 0) →
      interrupt_handler m vector = reset m) ∧
    (m.idt ≠ 0 → read_bytes_le m.mem (m.idt + vector * 8) 8 ≠ 0 →
      (interrupt_handler m vector).registers .Sp = m.registers .Sp - 16 ∧
      read_bytes_le (interrupt_handler m vector).mem (m.registers .Sp - 8) 8 = m.flags ∧
      read_bytes_le (interrupt_handler m vector).mem (m.registers .Sp - 16) 8 =
        m.registers .Ip % 2 ^ 64 ∧
      (interrupt_handler m vector).registers .Ip =
        read_bytes_le m.mem (m.idt + vector * 8) 8 ∧
      (interrupt_handler m vector).flags = m.flags) := by
  have haddr : (m.idt + vector * 8) % 2 ^ 64 = m.idt + vector * 8 := Nat.mod_eq_of_lt hidt
  have haddrN : (m.idt + vector * 8) % 18446744073709551616 = m.idt + vector * 8 := haddr
  constructor
  · rintro (h0 | hslot)
    · simp [interrupt_handler, h0]
    · by_cases h0 : m.idt = 0
      · simp [interrupt_handler, h0]
      · simp [interrupt_handler, h0, haddrN, hslot]
  · intro h0 hs
    obtain ⟨q1Sp, q1other, q1flags, -, -, q1mem⟩ :=
      push_qword_fields m m.flags (by omega) hsp_hi
    have hv2 : (push_qword m m.flags).registers .Ip = m.registers .Ip :=
      q1other .Ip (by decide)
    obtain ⟨q2Sp, q2other, q2flags, -, -, q2mem⟩ :=
      push_qword_fields (push_qword m m.flags)
        ((push_qword m m.flags).registers .Ip)
        (by rw [q1Sp]; omega) (by rw [q1Sp]; omega)
    rw [hv2] at q2Sp q2other q2flags q2mem
    rw [q1Sp] at q2Sp q2mem
    rw [q1mem] at q2mem
    have hsub : m.registers .Sp - 8 - 8 = m.registers .Sp - 16 := by omega
    rw [hsub] at q2Sp q2mem
    have hihregs : (interrupt_handler m vector).registers =
        register_assign
          (push_qword (push_qword m m.flags) (m.registers .Ip)).registers .Ip
          (read_bytes_le m.mem (m.idt + vector * 8) 8) := by
      simp [interrupt_handler, push_flags, h0, hs, haddrN, hv2]
    have hihmem : (interrupt_handler m vector).mem =
        (push_qword (push_qword m m.flags) (m.registers .Ip)).mem := by
      simp [interrupt_handler, push_flags, h0, hs, haddrN, hv2]
    have hihflags : (interrupt_handler m vector).flags =
        (push_qword (push_qword m m.flags) (m.registers .Ip)).flags := by
      simp [interrupt_handler, push_flags, h0, hs, haddrN, hv2]
    have hlen : (to_le_bytes (m.registers .Ip) 8).length = 8 := to_le_bytes_length ..
    have h2to64 : (256 : Nat) ^ 8 = 2 ^ 64 := by norm_num
    refine ⟨?_, ?_, ?_, ?_, ?_⟩
    · rw [hihregs]
      rw [show register_assign
          (push_qword (push_qword m m.flags) (m.registers .Ip)).registers .Ip
          (read_bytes_le m.mem (m.idt + vector * 8) 8) .Sp =
          (push_qword (push_qword m m.flags) (m.registers .Ip)).registers .Sp from by
        simp [register_assign]]
      exact q2Sp
    · rw [hihmem, q2mem]
      rw [read_bytes_le_write_bytes_disjoint _ _ _ _ _ (by rw [hlen]; omega)]
      rw [read_bytes_le_write_bytes_le, h2to64, Nat.mod_eq_of_lt hflags]
    · rw [hihmem, q2mem]
      rw [read_bytes_le_write_bytes_le, h2to64]
    · rw [hihregs]
      have hhandler_lt : read_bytes_le m.mem (m.idt + vector * 8) 8 < 2 ^ 64 := by
        have := read_bytes_le_lt m.mem (m.idt + vector * 8) 8
        omega
      simp [register_assign]
      omega
    · rw [hihflags, q2flags, q1flags]

/-- A machine with an installed IDT at `0x100` whose slot 0 holds handler
address `0x200`; `SP = 0x1000`, `IP = 0x34`, flags `0b10101`. -/
def idt_machine : Cpu :=
  { registers := fun r => if r = .Sp then 0x1000 else if r = .Ip then 0x34 else 0
    idt := 0x100
    flags := 21
    halted := false
    mem := fun a => if a = 0x101 then 2 else 0 }

/-- Witness for `interrupt_dispatch_order` at a concrete machine and
vector 0. -/
theorem interrupt_dispatch_order_witness :
    (interrupt_handler idt_machine 0).registers .Ip = 0x200 ∧
    (interrupt_handler idt_machine 0).registers .Sp = 0xff0 ∧
    read_bytes_le (interrupt_handler idt_machine 0).mem 0xff0 8 = 0x34 := by
  obtain ⟨-, h2⟩ :=
    interrupt_dispatch_order idt_machine 0 (by decide) (by decide) (by decide) (by decide)
  obtain ⟨hsp, -, hip, hI, -⟩ := h2 (by decide) (by decide)
  have e : idt_machine.registers .Sp - 16 = 0xff0 := by decide
  rw [e] at hsp hip
  exact ⟨hI.trans (by decide), hsp, hip.trans (by decide)⟩

theorem interrupt_handler_preserves (m : Cpu) (idt_entry : Nat) :
    (∀ fl, fl ≠ CpuFlag.InterruptEnable →
      get_flag (interrupt_handler m idt_entry).flags fl = get_flag m.flags fl) ∧
    (∀ r, r ≠ RegisterId.Sp → r ≠ RegisterId.Ip →
      (interrupt_handler m idt_entry).registers r = m.registers r) := by
  constructor
  · intro fl hfl
    unfold interrupt_handler
    dsimp only
    split
    · split
      · simp [push_qword, push_flags]
      · simp [reset, get_flag_set_flag, Ne.symm hfl]
    · simp [reset, get_flag_set_flag, Ne.symm hfl]
  · intro r h1 h2
    unfold interrupt_handler
    dsimp only
    split
    · split
      · simp [push_qword, push_flags, register_sub_assign, register_assign, h1, h2]
      · simp [reset, register_assign, h1, h2]
    · simp [reset, register_assign, h1, h2]

/-- C8: DIV with a zero divisor returns `Err(DIVIDE_BY_ZERO)` with the CPU
state untouched (no partial mutation on the error path), the result is
delivered as a non-maskable interrupt — `execute_opcode` dispatches it through
`interrupt_handler` unconditionally, with no `InterruptEnable` check — and
after delivery the four arithmetic flags and the general registers `X0`-`X4`
(in particular any destination register among them) still hold their values
from before the instruction. -/
theorem div_by_zero_nonmaskable (m : Cpu) (dst_id : RegisterId) (rhs_value : Nat)
    (size : Size) (h : rhs_value = 0) :
    DIV_body m dst_id rhs_value size = (m, some DIVIDE_BY_ZERO) ∧
    deliver_result (DIV_body m dst_id rhs_value size) =
      interrupt_handler m DIVIDE_BY_ZERO ∧
    (get_flag (deliver_result (DIV_body m dst_id rhs_value size)).flags .Zero =
        get_flag m.flags .Zero ∧
      get_flag (deliver_result (DIV_body m dst_id rhs_value size)).flags .Negative =
        get_flag m.flags .Negative ∧
      get_flag (deliver_result (DIV_body m dst_id rhs_value size)).flags .Carry =
        get_flag m.flags .Carry ∧
      get_flag (deliver_result (DIV_body m dst_id rhs_value size)).flags .Overflow =
        get_flag m.flags .Overflow) ∧
    (∀ r, r ≠ RegisterId.Sp → r ≠ RegisterId.Ip →
      (deliver_result (DIV_body m dst_id rhs_value size)).registers r =
        m.registers r) := by
  have h1 : DIV_body m dst_id rhs_value size = (m, some DIVIDE_BY_ZERO) := by
    simp [DIV_body, h]
  have h2 : deliver_result (DIV_body m dst_id rhs_value size) =
      interrupt_handler m DIVIDE_BY_ZERO := by
    rw [h1]
    rfl
  obtain ⟨hf, hr⟩ := interrupt_handler_preserves m DIVIDE_BY_ZERO
  refine ⟨h1, h2, ⟨?_, ?_, ?_, ?_⟩, ?_⟩
  · rw [h2]
    exact hf _ (by decide)
  · rw [h2]
    exact hf _ (by decide)
  · rw [h2]
    exact hf _ (by decide)
  · rw [h2]
    exact hf _ (by decide)
  · intro r ha hb
    rw [h2]
    exact hr r ha hb

/-- Witness for `div_by_zero_nonmaskable` at a concrete machine. -/
theorem div_by_zero_nonmaskable_witness :
    DIV_body x0_100_machine .X1 0 .Two = (x0_100_machine, some DIVIDE_BY_ZERO) ∧
    (deliver_result (DIV_body x0_100_machine .X1 0 .Two)).registers .X0 =
      x0_100_machine.registers .X0 := by
  obtain ⟨h1, -, -, hr⟩ := div_by_zero_nonmaskable x0_100_machine .X1 0 .Two rfl
  exact ⟨h1, hr .X0 (by decide) (by decide)⟩

theorem filterMap_ite_eq_map_filter {A B : Type} (p : A → Prop) [DecidablePred p]
    (g : A → B) (l : List A) :
    l.filterMap (fun a => if p a then some (g a) else none) =
      (l.filter fun a => decide (p a)).map g := by
  induction l with
  | nil => rfl
  | cons a l ih =>
    by_cases h : p a
    · simp [h, ih]
    · simp [h, ih]

/-- C9: `AddressBus::write` delivers to each entry whose interval intersects
the written range exactly one call carrying the clipped sub-slice of `src`
and `offset = clipped_start - device.start`, and nothing to any other entry:
the produced call list is precisely the overlap-filtered entry list mapped
through the clip; in particular (scenario S5) a write of 8 bytes at address
12 against devices at `[0,16)` and `[16,32)` delivers 4 bytes to the first at
offset 12 and 4 bytes to the second at offset 0. -/
theorem address_bus_write_clipping :
    (∀ (entries : List BusEntry) (src : List Nat) (address : Nat),
      address_bus_write entries src address =
        (entries.filter fun e => bus_overlaps e address src.length).map
          fun e => clipped_call e src address) ∧
    address_bus_write [⟨0, 16⟩, ⟨16, 32⟩] [1, 2, 3, 4, 5, 6, 7, 8] 12 =
      [⟨0, 16, [1, 2, 3, 4], 12, 12⟩, ⟨16, 32, [5, 6, 7, 8], 12, 0⟩] := by
  constructor
  · intro entries src address
    unfold address_bus_write
    exact filterMap_ite_eq_map_filter
      (fun e => max e.start address < min e.stop (address + src.length))
      (fun e => clipped_call e src address) entries
  · decide

/-- C10 counterexample: reading port `0xFFFF` does not return the all-ones
sentinel — the slot table has only `0xffff` entries (indices 0..0xfffe), so
`entries[0xffff]` is out of bounds and the Rust code panics (modelled as
`none`). -/
theorem port_oob_read_cex :
    port_bus_read (fun _ => none) 0xffff ≠ some 0xffffffffffffffff := by
  decide

/-- C10 as amended: for every port below `0xFFFF` with no device mapped,
`PortBus::read` returns `0xFFFFFFFFFFFFFFFF`, and an IN instruction naming
such a port assigns all-ones to its destination register; port `0xFFFF`
itself indexes past the 65535-slot table and panics instead. -/
theorem port_unmapped_read_amended (entries : PortBusEntries) (m : Cpu)
    (dst_id : RegisterId) (port : Nat) (h : port < 0xffff)
    (hnone : entries ⟨port, h⟩ = none) :
    port_bus_read entries port = some 0xffffffffffffffff ∧
    IN_body entries m dst_id port =
      some { m with
        registers := register_assign m.registers dst_id 0xffffffffffffffff } ∧
    port_bus_read entries 0xffff = none := by
  have h1 : port_bus_read entries port = some 0xffffffffffffffff := by
    unfold port_bus_read
    rw [dif_pos h, hnone]
  refine ⟨h1, ?_, ?_⟩
  · simp [IN_body, h1]
  · simp [port_bus_read]

/-- Witness for `port_unmapped_read_amended` at the unmapped port of
scenario S6 and at the out-of-bounds port. -/
theorem port_unmapped_read_amended_witness :
    port_bus_read (fun _ => none) 0x1234 = some 0xffffffffffffffff ∧
    port_bus_read (fun _ => none) 0xffff = none := by
  obtain ⟨h1, -, h3⟩ :=
    port_unmapped_read_amended (fun _ => none) halted_machine .X0 0x1234 (by decide) rfl
  exact ⟨h1, h3⟩
